import Mathlib

/-!
# Cashflow Commander — verification of the transaction store and aggregation engine

Shallow embedding of `database.py` (class `CashflowDatabase`).  The SQLite
tables become Lean lists; each method becomes a Lean function with the same
name.  Amounts (SQL `REAL`) are modelled as exact rationals; dates (SQL `TEXT`
in ISO `YYYY-MM-DD` form) are modelled as year/month/day triples whose
lexicographic order coincides with the byte-wise text order SQLite uses on
well-formed ISO dates.  SQLite errors (CHECK / UNIQUE constraint failures)
become `Except.error`.
-/

namespace Cashflow

/-- A calendar date, standing for the ISO `YYYY-MM-DD` text stored in the
`date` column. -/
structure Date where
  year : Nat
  month : Nat
  day : Nat
deriving DecidableEq, Repr

/-- Strict date order: lexicographic on (year, month, day), which is the
order `ORDER BY date` produces on well-formed ISO date strings. -/
def dateLt (a b : Date) : Prop :=
  a.year < b.year ∨ (a.year = b.year ∧
    (a.month < b.month ∨ (a.month = b.month ∧ a.day < b.day)))

instance : DecidableRel dateLt := fun a b => by
  unfold dateLt; infer_instance

/-- Non-strict date order. -/
def dateLe (a b : Date) : Prop := dateLt a b ∨ a = b

instance : DecidableRel dateLe := fun a b => by
  unfold dateLe; infer_instance

/-- A row of the `transactions` table.  The `type` column is kept as a string
because the SQLite CHECK constraint (`type IN ('Income', 'Expense')`) operates
on arbitrary strings. -/
structure Transaction where
  id : Nat
  username : String
  date : Date
  type : String
  category : String
  amount : ℚ
  description : String
deriving DecidableEq, Repr

/-- The transaction store: the `transactions` table plus the autoincrement
counter that assigns the next primary key. -/
structure Store where
  transactions : List Transaction
  nextId : Nat
deriving DecidableEq, Repr

/-- A row of the `users` table. -/
structure UserRec where
  username : String
  password_hash : String
  role : String
deriving DecidableEq, Repr

/-- The nine default categories seeded by `init_database`
(`default_categories` in the source): (name, type) pairs. -/
def default_categories : List (String × String) :=
  [("Sales", "Income"), ("Services", "Income"), ("Other Income", "Income"),
   ("Rent", "Expense"), ("Supplies", "Expense"), ("Utilities", "Expense"),
   ("Marketing", "Expense"), ("Insurance", "Expense"), ("Other Expense", "Expense")]

/-- `add_transaction`: a bare `INSERT INTO transactions`.  SQLite enforces the
table's CHECK constraints — `type IN ('Income','Expense')` and `amount > 0` —
raising `IntegrityError` (here `Except.error`) and inserting nothing when one
fails.  No constraint relates `category` to the `categories` table. -/
def add_transaction (s : Store) (username : String) (date : Date)
    (type category : String) (amount : ℚ) (description : String) :
    Except String Store :=
  if ¬ (type = "Income" ∨ type = "Expense") then
    Except.error "CHECK constraint failed: type IN ('Income', 'Expense')"
  else if ¬ (0 < amount) then
    Except.error "CHECK constraint failed: amount > 0"
  else
    Except.ok
      { transactions := s.transactions ++
          [⟨s.nextId, username, date, type, category, amount, description⟩],
        nextId := s.nextId + 1 }

/-- Descending retrieval order of `get_all_transactions`:
`ORDER BY date DESC, id DESC`. -/
def txAfter (a b : Transaction) : Prop :=
  dateLt b.date a.date ∨ (a.date = b.date ∧ b.id ≤ a.id)

instance : DecidableRel txAfter := fun a b => by
  unfold txAfter; infer_instance

/-- The `WHERE username = ?` restriction shared by every per-user query. -/
def ownerTxs (s : Store) (username : String) : List Transaction :=
  s.transactions.filter (fun t => t.username == username)

/-- `get_all_transactions`: `SELECT ... WHERE username = ? ORDER BY date DESC,
id DESC`. -/
def get_all_transactions (s : Store) (username : String) : List Transaction :=
  List.insertionSort txAfter (ownerTxs s username)

/-- The field overwrite a row receives from `update_transaction`'s `SET`
clause. -/
def setRow (t : Transaction) (date : Date) (type category : String)
    (amount : ℚ) (description : String) : Transaction :=
  { t with date := date, type := type, category := category,
           amount := amount, description := description }

/-- `update_transaction`: `UPDATE transactions SET ... WHERE id = ?`.
When no row has the id, zero rows are affected and SQLite raises no error.
When a row matches, the CHECK constraints are enforced on the updated row. -/
def update_transaction (s : Store) (transaction_id : Nat) (date : Date)
    (type category : String) (amount : ℚ) (description : String) :
    Except String Store :=
  if s.transactions.all (fun t => t.id != transaction_id) then
    Except.ok s
  else if ¬ (type = "Income" ∨ type = "Expense") then
    Except.error "CHECK constraint failed: type IN ('Income', 'Expense')"
  else if ¬ (0 < amount) then
    Except.error "CHECK constraint failed: amount > 0"
  else
    Except.ok
      { s with transactions := s.transactions.map (fun t =>
          if t.id = transaction_id then
            setRow t date type category amount description
          else t) }

/-- `delete_transaction`: `DELETE FROM transactions WHERE id = ?`.  Never an
error, whether or not a row matches. -/
def delete_transaction (s : Store) (transaction_id : Nat) : Store :=
  { s with transactions := s.transactions.filter (fun t => t.id != transaction_id) }

/-- `delete_all_user_transactions`: `DELETE FROM transactions WHERE username = ?`. -/
def delete_all_user_transactions (s : Store) (username : String) : Store :=
  { s with transactions := s.transactions.filter (fun t => t.username != username) }

/-- The signed contribution of one row inside `get_cumulative_balance`'s
`SUM(CASE WHEN type = 'Income' THEN amount ELSE -amount END)`. -/
def signedAmount (t : Transaction) : ℚ :=
  if t.type = "Income" then t.amount else -t.amount

/-- The `daily_change` aggregate of one date group. -/
def dailyChange (ts : List Transaction) (d : Date) : ℚ :=
  ((ts.filter (fun t => t.date == d)).map signedAmount).sum

/-- The distinct dates of a transaction list in ascending order: the groups
produced by `GROUP BY date ... ORDER BY date`. -/
def distinctDatesAsc (ts : List Transaction) : List Date :=
  List.insertionSort dateLe ((ts.map (fun t => t.date)).dedup)

/-- The pandas `cumsum` over the ordered date groups: pairs each date with the
running total of the `net` values seen so far, starting from `acc`. -/
def cumulate (net : Date → ℚ) (acc : ℚ) : List Date → List (Date × ℚ)
  | [] => []
  | d :: ds => (d, acc + net d) :: cumulate net (acc + net d) ds

/-- `get_cumulative_balance`: group the user's rows by date, take the signed
daily sum, order by date ascending, and pair each date with the cumulative
sum. -/
def get_cumulative_balance (s : Store) (username : String) :
    List (Date × ℚ) :=
  cumulate (dailyChange (ownerTxs s username)) 0
    (distinctDatesAsc (ownerTxs s username))

/-- The grouping key of `get_monthly_summary`'s `GROUP BY category, type`. -/
def txKey (t : Transaction) : String × String := (t.category, t.type)

/-- Group a row list by (category, type) and sum the amounts of each group:
the `SELECT category, type, SUM(amount) ... GROUP BY category, type` shape. -/
def aggregateByKey (ts : List Transaction) : List (String × String × ℚ) :=
  ((ts.map txKey).dedup).map (fun k =>
    (k.1, k.2, ((ts.filter (fun t => txKey t == k)).map (fun t => t.amount)).sum))

/-- The `WHERE username = ? AND strftime('%Y', date) = ? AND
strftime('%m', date) = ?` restriction of `get_monthly_summary` (the strftime
fields of a well-formed ISO date are its year and month). -/
def monthTxs (s : Store) (username : String) (year month : Nat) :
    List Transaction :=
  s.transactions.filter (fun t =>
    t.username == username && t.date.year == year && t.date.month == month)

/-- `get_monthly_summary`: restrict to the user's rows in the given calendar
year and month, then group by (category, type) and sum the amounts. -/
def get_monthly_summary (s : Store) (username : String) (year month : Nat) :
    List (String × String × ℚ) :=
  aggregateByKey (monthTxs s username year month)

/-- The spec's client-side cross-check: filter `listByOwner` (that is,
`get_all_transactions`) to the calendar month, then aggregate by
(category, kind) manually. -/
def monthlySummaryClient (s : Store) (username : String) (year month : Nat) :
    List (String × String × ℚ) :=
  aggregateByKey ((get_all_transactions s username).filter (fun t =>
    t.date.year == year && t.date.month == month))

/-- `verify_user`: look up the row with the username, return `(True, role)`
when the bcrypt check passes, `(False, None)` otherwise.  The bcrypt check
itself is external, so it is passed in as `checkpw`. -/
def verify_user (checkpw : String → String → Bool) (users : List UserRec)
    (username password : String) : Bool × Option String :=
  match users.find? (fun u => u.username == username) with
  | some u => if checkpw password u.password_hash then (true, some u.role)
              else (false, none)
  | none => (false, none)

/-- `update_password`: hash the new password (the salted hash is passed in as
`newHash`) and run `UPDATE users SET password_hash = ? WHERE username = ?`.
The update succeeds whether or not any row matches, and the method returns
`(True, "Password updated successfully")`. -/
def update_password (users : List UserRec) (username newHash : String) :
    List UserRec × Bool × String :=
  (users.map (fun u =>
      if u.username == username then { u with password_hash := newHash } else u),
   true, "Password updated successfully")

/-- The admin-bootstrap step of `init_database`: when no user has role
`'admin'`, insert `('admin', hashpw('admin123'), 'admin')`.  The insert hits
the `username` primary key, so it fails when a user named `admin` already
exists. -/
def init_admin (hashpw : String → String) (users : List UserRec) :
    Except String (List UserRec) :=
  if (users.filter (fun u => u.role == "admin")).length == 0 then
    if users.any (fun u => u.username == "admin") then
      Except.error "UNIQUE constraint failed: users.username"
    else
      Except.ok (users ++ [⟨"admin", hashpw "admin123", "admin"⟩])
  else
    Except.ok users

/-! ### Order facts about dates and the retrieval order -/

theorem dateLt_iff {a b : Date} :
    dateLt a b ↔ a.year < b.year ∨ (a.year = b.year ∧
      (a.month < b.month ∨ (a.month = b.month ∧ a.day < b.day))) := Iff.rfl

theorem dateLt_irrefl (a : Date) : ¬ dateLt a a := by
  simp only [dateLt_iff]; omega

theorem dateLt_trans {a b c : Date} (h1 : dateLt a b) (h2 : dateLt b c) :
    dateLt a c := by
  simp only [dateLt_iff] at *; omega

theorem dateLt_trichotomy (a b : Date) : dateLt a b ∨ a = b ∨ dateLt b a := by
  obtain ⟨y1, m1, d1⟩ := a
  obtain ⟨y2, m2, d2⟩ := b
  simp only [dateLt_iff, Date.mk.injEq]
  omega

theorem dateLe_refl (a : Date) : dateLe a a := Or.inr rfl

theorem dateLt_dateLe {a b : Date} (h : dateLt a b) : dateLe a b := Or.inl h

theorem dateLe_total (a b : Date) : dateLe a b ∨ dateLe b a := by
  rcases dateLt_trichotomy a b with h | h | h
  · exact Or.inl (Or.inl h)
  · exact Or.inl (Or.inr h)
  · exact Or.inr (Or.inl h)

theorem dateLe_trans {a b c : Date} (h1 : dateLe a b) (h2 : dateLe b c) :
    dateLe a c := by
  rcases h1 with h1 | rfl
  · rcases h2 with h2 | rfl
    · exact Or.inl (dateLt_trans h1 h2)
    · exact Or.inl h1
  · exact h2

theorem dateLe_of_ne_of_le {a b : Date} (h : dateLe a b) (hne : a ≠ b) :
    dateLt a b := by
  rcases h with h | rfl
  · exact h
  · exact absurd rfl hne

theorem not_dateLe_of_dateLt {a b : Date} (h : dateLt a b) : ¬ dateLe b a := by
  intro hle
  rcases hle with hlt | rfl
  · exact dateLt_irrefl a (dateLt_trans h hlt)
  · exact dateLt_irrefl _ h

instance : IsTotal Date dateLe := ⟨dateLe_total⟩

instance : IsTrans Date dateLe := ⟨fun _ _ _ => dateLe_trans⟩

theorem txAfter_total (a b : Transaction) : txAfter a b ∨ txAfter b a := by
  unfold txAfter
  rcases dateLt_trichotomy a.date b.date with h | h | h
  · exact Or.inr (Or.inl h)
  · rcases Nat.le_total b.id a.id with hid | hid
    · exact Or.inl (Or.inr ⟨h, hid⟩)
    · exact Or.inr (Or.inr ⟨h.symm, hid⟩)
  · exact Or.inl (Or.inl h)

theorem txAfter_trans {a b c : Transaction} (h1 : txAfter a b)
    (h2 : txAfter b c) : txAfter a c := by
  unfold txAfter at *
  rcases h1 with h1 | ⟨he1, hi1⟩
  · rcases h2 with h2 | ⟨he2, hi2⟩
    · exact Or.inl (dateLt_trans h2 h1)
    · exact Or.inl (he2 ▸ h1)
  · rcases h2 with h2 | ⟨he2, hi2⟩
    · exact Or.inl (he1.symm ▸ h2)
    · exact Or.inr ⟨he1.trans he2, hi2.trans hi1⟩

instance : IsTotal Transaction txAfter := ⟨txAfter_total⟩

instance : IsTrans Transaction txAfter := ⟨fun _ _ _ => txAfter_trans⟩

/-! ### Helper lemmas for the aggregation engine -/

theorem sum_map_filter_split {α : Type _} (p : α → Bool) (f : α → ℚ) :
    ∀ l : List α,
      ((l.filter p).map f).sum + ((l.filter (fun a => !p a)).map f).sum
        = (l.map f).sum
  | [] => by simp
  | a :: l => by
    by_cases h : p a = true
    · rw [List.filter_cons_of_pos h, List.filter_cons_of_neg (by simp [h])]
      simp only [List.map_cons, List.sum_cons]
      rw [add_assoc, sum_map_filter_split p f l]
    · rw [List.filter_cons_of_neg h, List.filter_cons_of_pos (by simp [h])]
      simp only [List.map_cons, List.sum_cons]
      rw [← sum_map_filter_split p f l]
      ring

theorem cumulate_map_fst (net : Date → ℚ) :
    ∀ (acc : ℚ) (ds : List Date), (cumulate net acc ds).map Prod.fst = ds
  | _, [] => rfl
  | acc, d :: ds => by
    simp only [cumulate, List.map_cons]
    rw [cumulate_map_fst net (acc + net d) ds]

theorem fst_mem_of_mem_cumulate {net : Date → ℚ} {acc : ℚ} {ds : List Date}
    {p : Date × ℚ} (hp : p ∈ cumulate net acc ds) : p.1 ∈ ds := by
  rw [← cumulate_map_fst net acc ds]
  exact List.mem_map_of_mem Prod.fst hp

theorem cumulate_getLast?_snd (net : Date → ℚ) :
    ∀ (acc : ℚ) (ds : List Date) (p : Date × ℚ),
      (cumulate net acc ds).getLast? = some p →
      p.2 = acc + (ds.map net).sum
  | acc, [], p => by simp [cumulate]
  | acc, [d], p => by
    simp only [cumulate, List.getLast?_singleton, Option.some.injEq,
      List.map_cons, List.map_nil, List.sum_cons, List.sum_nil]
    intro h
    rw [← h]
    simp
  | acc, d :: d' :: ds, p => by
    intro h
    have hshape : cumulate net acc (d :: d' :: ds) =
        (d, acc + net d) :: cumulate net (acc + net d) (d' :: ds) := rfl
    rw [hshape] at h
    have hcons : cumulate net (acc + net d) (d' :: ds) =
        (d', acc + net d + net d') ::
          cumulate net (acc + net d + net d') ds := rfl
    rw [hcons, List.getLast?_cons_cons, ← hcons] at h
    have := cumulate_getLast?_snd net (acc + net d) (d' :: ds) p h
    rw [this]
    simp only [List.map_cons, List.sum_cons]
    ring

theorem cumulate_mem_snd (net : Date → ℚ) :
    ∀ (acc : ℚ) (ds : List Date), List.Pairwise dateLt ds →
      ∀ p ∈ cumulate net acc ds,
        p.2 = acc + ((ds.filter (fun d => decide (dateLe d p.1))).map net).sum
  | acc, [], _, p => by simp [cumulate]
  | acc, d :: ds, hpw, p => by
    intro hp
    obtain ⟨hd, htl⟩ := List.pairwise_cons.mp hpw
    rcases List.mem_cons.mp hp with rfl | hp'
    · show acc + net d =
        acc + (((d :: ds).filter (fun x => decide (dateLe x d))).map net).sum
      have h1 : List.filter (fun x => decide (dateLe x d)) (d :: ds) =
          d :: List.filter (fun x => decide (dateLe x d)) ds :=
        List.filter_cons_of_pos (by simp [dateLe_refl])
      have h2 : List.filter (fun x => decide (dateLe x d)) ds = [] := by
        rw [List.filter_eq_nil_iff]
        intro d' hd'
        simp only [decide_eq_true_eq]
        exact not_dateLe_of_dateLt (hd d' hd')
      rw [h1, h2]
      simp
    · have hfst : p.1 ∈ ds := fst_mem_of_mem_cumulate hp'
      have h1 : List.filter (fun x => decide (dateLe x p.1)) (d :: ds) =
          d :: List.filter (fun x => decide (dateLe x p.1)) ds :=
        List.filter_cons_of_pos
          (by simp only [decide_eq_true_eq]; exact dateLt_dateLe (hd p.1 hfst))
      rw [h1]
      have := cumulate_mem_snd net (acc + net d) ds htl p hp'
      rw [this]
      simp only [List.map_cons, List.sum_cons]
      ring

theorem sum_dailyChange :
    ∀ (ds : List Date) (ts : List Transaction), ds.Nodup →
      (∀ t ∈ ts, t.date ∈ ds) →
      (ds.map (dailyChange ts)).sum = (ts.map signedAmount).sum
  | [], ts, _, hcover => by
    have hts : ts = [] := by
      rw [List.eq_nil_iff_forall_not_mem]
      intro t ht
      exact absurd (hcover t ht) (List.not_mem_nil _)
    rw [hts]
    simp
  | d :: ds, ts, hnd, hcover => by
    have hdnot : d ∉ ds := (List.nodup_cons.mp hnd).1
    have hnd' : ds.Nodup := (List.nodup_cons.mp hnd).2
    have hcong : ∀ d' ∈ ds,
        dailyChange ts d' = dailyChange (ts.filter (fun t => !(t.date == d))) d' := by
      intro d' hd'
      have hne : d' ≠ d := fun h => hdnot (h ▸ hd')
      unfold dailyChange
      rw [List.filter_filter]
      have hfil : List.filter
          (fun a => (a.date == d') && !(a.date == d)) ts =
          List.filter (fun t => t.date == d') ts := by
        apply List.filter_congr
        intro t _
        by_cases h : t.date = d'
        · simp [h, hne]
        · simp [h]
      rw [hfil]
    have hcov2 : ∀ t ∈ ts.filter (fun t => !(t.date == d)), t.date ∈ ds := by
      intro t ht
      obtain ⟨htts, hpred⟩ := List.mem_filter.mp ht
      rcases List.mem_cons.mp (hcover t htts) with h | h
      · exfalso
        revert hpred
        simp [h]
      · exact h
    calc ((d :: ds).map (dailyChange ts)).sum
        = dailyChange ts d +
            (ds.map (dailyChange (ts.filter (fun t => !(t.date == d))))).sum := by
          rw [List.map_cons, List.sum_cons, List.map_congr_left hcong]
      _ = dailyChange ts d +
            ((ts.filter (fun t => !(t.date == d))).map signedAmount).sum := by
          rw [sum_dailyChange ds (ts.filter (fun t => !(t.date == d))) hnd' hcov2]
      _ = (ts.map signedAmount).sum := by
          unfold dailyChange
          exact sum_map_filter_split (fun t => t.date == d) signedAmount ts

theorem distinctDatesAsc_nodup (ts : List Transaction) :
    (distinctDatesAsc ts).Nodup :=
  ((List.perm_insertionSort dateLe _).nodup_iff).mpr (List.nodup_dedup _)

theorem distinctDatesAsc_sorted (ts : List Transaction) :
    List.Pairwise dateLt (distinctDatesAsc ts) := by
  have hs : List.Pairwise dateLe (distinctDatesAsc ts) := by
    unfold distinctDatesAsc
    exact List.sorted_insertionSort dateLe _
  have hn : List.Pairwise (fun a b : Date => a ≠ b) (distinctDatesAsc ts) :=
    distinctDatesAsc_nodup ts
  exact (hs.and hn).imp (fun h => dateLe_of_ne_of_le h.1 h.2)

theorem mem_distinctDatesAsc {ts : List Transaction} {d : Date} :
    d ∈ distinctDatesAsc ts ↔ ∃ t ∈ ts, t.date = d := by
  unfold distinctDatesAsc
  rw [(List.perm_insertionSort dateLe _).mem_iff, List.mem_dedup, List.mem_map]

/-! ### Claim theorems -/

/-- A concrete store for the spec's scenarios: alice records Income/Sales/100
and Expense/Rent/40 on 2024-01-05 and Income/Sales/50 on 2024-02-01; bob has
one unrelated transaction. -/
def sampleStore : Store :=
  { transactions :=
      [⟨1, "alice", ⟨2024, 1, 5⟩, "Income", "Sales", 100, ""⟩,
       ⟨2, "alice", ⟨2024, 1, 5⟩, "Expense", "Rent", 40, ""⟩,
       ⟨3, "alice", ⟨2024, 2, 1⟩, "Income", "Sales", 50, ""⟩,
       ⟨4, "bob", ⟨2024, 1, 7⟩, "Income", "Services", 7, ""⟩],
    nextId := 5 }

/-- C1: `get_cumulative_balance(owner)` pairs the owner's distinct transaction
dates, in strictly ascending order, with the running (prefix) sum of the daily
nets (Income minus Expense) up to each date; an owner with no transactions
yields the empty sequence, and the last entry's balance equals the sum of all
daily nets, which is the signed sum over all of the owner's transactions. -/
theorem cumulative_balance_correct (s : Store) (username : String) :
    (ownerTxs s username = [] → get_cumulative_balance s username = []) ∧
    List.Pairwise (fun p q : Date × ℚ => dateLt p.1 q.1)
      (get_cumulative_balance s username) ∧
    (∀ d : Date, (∃ b, (d, b) ∈ get_cumulative_balance s username) ↔
      ∃ t ∈ ownerTxs s username, t.date = d) ∧
    (∀ p ∈ get_cumulative_balance s username,
      p.2 = (((ownerTxs s username).filter
        (fun t => decide (dateLe t.date p.1))).map signedAmount).sum) ∧
    (∀ p : Date × ℚ, (get_cumulative_balance s username).getLast? = some p →
      p.2 = ((distinctDatesAsc (ownerTxs s username)).map
              (dailyChange (ownerTxs s username))).sum ∧
      p.2 = ((ownerTxs s username).map signedAmount).sum) := by
  set ts := ownerTxs s username with hts
  have hres : get_cumulative_balance s username =
      cumulate (dailyChange ts) 0 (distinctDatesAsc ts) := rfl
  refine ⟨?_, ?_, ?_, ?_, ?_⟩
  · intro h
    rw [hres, h]
    rfl
  · rw [hres]
    have hpw := distinctDatesAsc_sorted ts
    rw [← cumulate_map_fst (dailyChange ts) 0 (distinctDatesAsc ts),
      List.pairwise_map] at hpw
    exact hpw
  · intro d
    rw [hres]
    constructor
    · rintro ⟨b, hb⟩
      have : d ∈ distinctDatesAsc ts :=
        fst_mem_of_mem_cumulate hb
      exact mem_distinctDatesAsc.mp this
    · intro h
      have hd : d ∈ distinctDatesAsc ts := mem_distinctDatesAsc.mpr h
      rw [← cumulate_map_fst (dailyChange ts) 0 (distinctDatesAsc ts)] at hd
      obtain ⟨p, hp, hp1⟩ := List.mem_map.mp hd
      exact ⟨p.2, by rw [← hp1]; exact hp⟩
  · intro p hp
    rw [hres] at hp
    have hpre := cumulate_mem_snd (dailyChange ts) 0 (distinctDatesAsc ts)
      (distinctDatesAsc_sorted ts) p hp
    rw [zero_add] at hpre
    -- replace each kept date's daily net over `ts` by the daily net over the
    -- date-restricted list, then collapse the group sums
    have hcong : ∀ d' ∈ (distinctDatesAsc ts).filter
        (fun d => decide (dateLe d p.1)),
        dailyChange ts d' =
          dailyChange (ts.filter (fun t => decide (dateLe t.date p.1))) d' := by
      intro d' hd'
      obtain ⟨_, hled'⟩ := List.mem_filter.mp hd'
      unfold dailyChange
      rw [List.filter_filter]
      have hfil : List.filter
          (fun a => (a.date == d') && decide (dateLe a.date p.1)) ts =
          List.filter (fun t => t.date == d') ts := by
        apply List.filter_congr
        intro t _
        by_cases h : t.date = d'
        · simp only [h, beq_self_eq_true, Bool.true_and]
          simpa using hled'
        · simp [h]
      rw [hfil]
    have hnodup : ((distinctDatesAsc ts).filter
        (fun d => decide (dateLe d p.1))).Nodup :=
      (distinctDatesAsc_nodup ts).filter _
    have hcover : ∀ t ∈ ts.filter (fun t => decide (dateLe t.date p.1)),
        t.date ∈ (distinctDatesAsc ts).filter
          (fun d => decide (dateLe d p.1)) := by
      intro t ht
      obtain ⟨htts, hpred⟩ := List.mem_filter.mp ht
      exact List.mem_filter.mpr
        ⟨mem_distinctDatesAsc.mpr ⟨t, htts, rfl⟩, hpred⟩
    rw [hpre, List.map_congr_left hcong,
      sum_dailyChange _ _ hnodup hcover]
  · intro p hp
    rw [hres] at hp
    have hlast := cumulate_getLast?_snd (dailyChange ts) 0
      (distinctDatesAsc ts) p hp
    rw [zero_add] at hlast
    refine ⟨hlast, ?_⟩
    rw [hlast]
    exact sum_dailyChange (distinctDatesAsc ts) ts
      (distinctDatesAsc_nodup ts)
      (fun t ht => mem_distinctDatesAsc.mpr ⟨t, ht, rfl⟩)

/-- C1 witness: carol has no transactions and her sequence is empty; alice's
sequence is exactly [(2024-01-05, 60), (2024-02-01, 110)] (scenarios 1, 2 and
5 of the spec), and the last-entry law gives 110 = alice's total signed
sum. -/
theorem cumulative_balance_correct_witness :
    get_cumulative_balance sampleStore "carol" = [] ∧
    get_cumulative_balance sampleStore "alice" =
      [(⟨2024, 1, 5⟩, (60 : ℚ)), (⟨2024, 2, 1⟩, (110 : ℚ))] ∧
    ((⟨2024, 2, 1⟩, (110 : ℚ)) : Date × ℚ).2 =
      ((ownerTxs sampleStore "alice").map signedAmount).sum := by
  have h2 : distinctDatesAsc (ownerTxs sampleStore "alice") =
      [⟨2024, 1, 5⟩, ⟨2024, 2, 1⟩] := by decide
  have h3 : dailyChange (ownerTxs sampleStore "alice") ⟨2024, 1, 5⟩ = 60 := by
    have hf : (ownerTxs sampleStore "alice").filter
        (fun t => t.date == (⟨2024, 1, 5⟩ : Date)) =
        [⟨1, "alice", ⟨2024, 1, 5⟩, "Income", "Sales", 100, ""⟩,
         ⟨2, "alice", ⟨2024, 1, 5⟩, "Expense", "Rent", 40, ""⟩] := by decide
    unfold dailyChange
    rw [hf]
    simp [signedAmount]
    norm_num
  have h4 : dailyChange (ownerTxs sampleStore "alice") ⟨2024, 2, 1⟩ = 50 := by
    have hf : (ownerTxs sampleStore "alice").filter
        (fun t => t.date == (⟨2024, 2, 1⟩ : Date)) =
        [⟨3, "alice", ⟨2024, 2, 1⟩, "Income", "Sales", 50, ""⟩] := by decide
    unfold dailyChange
    rw [hf]
    simp [signedAmount]
  have heval : get_cumulative_balance sampleStore "alice" =
      [(⟨2024, 1, 5⟩, (60 : ℚ)), (⟨2024, 2, 1⟩, (110 : ℚ))] := by
    show cumulate (dailyChange (ownerTxs sampleStore "alice")) 0
        (distinctDatesAsc (ownerTxs sampleStore "alice")) = _
    rw [h2]
    simp [cumulate, h3, h4]
    norm_num
  refine ⟨(cumulative_balance_correct sampleStore "carol").1 (by decide),
    heval, ?_⟩
  exact ((cumulative_balance_correct sampleStore "alice").2.2.2.2
    (⟨2024, 2, 1⟩, (110 : ℚ)) (by rw [heval]; rfl)).2

/-- C9: `get_all_transactions(owner)` returns exactly the stored transactions
whose username equals the owner (as a permutation of the owner filter, hence
with multiplicity), ordered by date descending and, within equal dates, by id
descending. -/
theorem get_all_transactions_spec (s : Store) (username : String) :
    List.Perm (get_all_transactions s username) (ownerTxs s username) ∧
    (∀ t : Transaction, t ∈ get_all_transactions s username ↔
      (t ∈ s.transactions ∧ t.username = username)) ∧
    List.Pairwise
      (fun a b : Transaction =>
        dateLt b.date a.date ∨ (a.date = b.date ∧ b.id ≤ a.id))
      (get_all_transactions s username) := by
  refine ⟨List.perm_insertionSort txAfter _, ?_, ?_⟩
  · intro t
    unfold get_all_transactions ownerTxs
    rw [(List.perm_insertionSort txAfter _).mem_iff, List.mem_filter]
    simp
  · exact (List.sorted_insertionSort txAfter _).imp (fun h => h)

/-- C9 witness: on the scenario store, alice's listing is her three rows,
newest date first and higher id first within 2024-01-05, and each listed row
is alice's. -/
theorem get_all_transactions_spec_witness :
    get_all_transactions sampleStore "alice" =
      [⟨3, "alice", ⟨2024, 2, 1⟩, "Income", "Sales", 50, ""⟩,
       ⟨2, "alice", ⟨2024, 1, 5⟩, "Expense", "Rent", 40, ""⟩,
       ⟨1, "alice", ⟨2024, 1, 5⟩, "Income", "Sales", 100, ""⟩] ∧
    (⟨3, "alice", ⟨2024, 2, 1⟩, "Income", "Sales", 50, ""⟩ : Transaction) ∈
      get_all_transactions sampleStore "alice" :=
  ⟨by decide,
   ((get_all_transactions_spec sampleStore "alice").2.1
     ⟨3, "alice", ⟨2024, 2, 1⟩, "Income", "Sales", 50, ""⟩).mpr
     ⟨by decide, rfl⟩⟩

/-- C2 (amended): `add_transaction` fails — inserting nothing — whenever
amount ≤ 0 or the kind is neither Income nor Expense; whenever the kind is
valid and the amount positive it succeeds and appends the row, for every
category string, registered or not. -/
theorem add_transaction_validation (s : Store) (username : String)
    (date : Date) (type category : String) (amount : ℚ)
    (description : String) :
    ((amount ≤ 0 ∨ (type ≠ "Income" ∧ type ≠ "Expense")) →
      ∃ e, add_transaction s username date type category amount description =
        Except.error e) ∧
    ((type = "Income" ∨ type = "Expense") → 0 < amount →
      add_transaction s username date type category amount description =
        Except.ok
          { transactions := s.transactions ++
              [⟨s.nextId, username, date, type, category, amount, description⟩],
            nextId := s.nextId + 1 }) := by
  constructor
  · intro h
    unfold add_transaction
    by_cases hk : type = "Income" ∨ type = "Expense"
    · rw [if_neg (not_not_intro hk)]
      have ha : ¬ (0 < amount) := by
        rcases h with h | ⟨h1, h2⟩
        · exact not_lt.mpr h
        · exact absurd hk (by simp [h1, h2])
      rw [if_pos ha]
      exact ⟨_, rfl⟩
    · rw [if_pos hk]
      exact ⟨_, rfl⟩
  · intro hk ha
    unfold add_transaction
    rw [if_neg (not_not_intro hk), if_neg (not_not_intro ha)]

/-- C2 counterexample: "Bogus" is not a registered category, yet
`add_transaction` accepts it and inserts the row — the claimed
category-registry validation does not exist. -/
theorem add_transaction_unregistered_category_accepted :
    ("Bogus" ∉ default_categories.map Prod.fst) ∧
    add_transaction ⟨[], 1⟩ "alice" ⟨2024, 1, 5⟩ "Income" "Bogus" 5 "" =
      Except.ok ⟨[⟨1, "alice", ⟨2024, 1, 5⟩, "Income", "Bogus", 5, ""⟩], 2⟩ :=
  ⟨by decide, rfl⟩

/-- C2 witness: amount 0 is rejected (the insert does not succeed), amount
0.01 with registered kind and category is accepted and appended. -/
theorem add_transaction_validation_witness :
    (add_transaction sampleStore "alice" ⟨2024, 3, 1⟩ "Income" "Sales"
      0 "").isOk = false ∧
    add_transaction sampleStore "alice" ⟨2024, 3, 1⟩ "Income" "Sales"
        (1/100) "" =
      Except.ok
        { transactions := sampleStore.transactions ++
            [⟨5, "alice", ⟨2024, 3, 1⟩, "Income", "Sales", 1/100, ""⟩],
          nextId := 6 } := by
  constructor
  · obtain ⟨e, he⟩ := (add_transaction_validation sampleStore "alice"
      ⟨2024, 3, 1⟩ "Income" "Sales" 0 "").1 (Or.inl le_rfl)
    rw [he]
    rfl
  · exact (add_transaction_validation sampleStore "alice" ⟨2024, 3, 1⟩
      "Income" "Sales" (1/100) "").2 (Or.inl rfl) (by norm_num)

/-- C4 (amended): `update_transaction` on an id absent from the store is a
silent no-op: it raises nothing and returns the store unchanged. -/
theorem update_transaction_absent_id_noop (s : Store) (transaction_id : Nat)
    (date : Date) (type category : String) (amount : ℚ)
    (description : String) :
    (∀ t ∈ s.transactions, t.id ≠ transaction_id) →
    update_transaction s transaction_id date type category amount
      description = Except.ok s := by
  intro h
  unfold update_transaction
  rw [if_pos]
  exact List.all_eq_true.mpr (fun t ht => by simpa using h t ht)

/-- C4 witness: updating id 1 in the empty store returns the store
unchanged. -/
theorem update_transaction_absent_id_noop_witness :
    update_transaction ⟨[], 1⟩ 1 ⟨2024, 1, 5⟩ "Income" "Sales" 5 "" =
      Except.ok ⟨[], 1⟩ :=
  update_transaction_absent_id_noop ⟨[], 1⟩ 1 ⟨2024, 1, 5⟩ "Income" "Sales"
    5 "" (by decide)

/-- C4 counterexample: the claim says an absent id fails with NotFoundError,
but updating id 99 — absent from the sample store — succeeds with no error of
any kind and changes nothing. -/
theorem update_transaction_absent_id_no_error :
    update_transaction sampleStore 99 ⟨2024, 1, 5⟩ "Income" "Sales" 5 "" =
      Except.ok sampleStore := rfl

/-- C5 (amended, visibility half): every transaction a listing returns for an
owner carries that owner's username — listings never reveal another user's
transaction. -/
theorem listings_owner_scoped (s : Store) (username : String) :
    ∀ t ∈ get_all_transactions s username, t.username = username := by
  intro t ht
  unfold get_all_transactions ownerTxs at ht
  have hmem := (List.perm_insertionSort txAfter _).mem_iff.mp ht
  obtain ⟨_, hp⟩ := List.mem_filter.mp hmem
  simpa using hp

/-- C5 witness: alice's listing of the sample store contains her row with
id 3, whose username the theorem forces to be "alice". -/
theorem listings_owner_scoped_witness :
    (⟨3, "alice", ⟨2024, 2, 1⟩, "Income", "Sales", 50, ""⟩ :
      Transaction).username = "alice" :=
  listings_owner_scoped sampleStore "alice"
    ⟨3, "alice", ⟨2024, 2, 1⟩, "Income", "Sales", 50, ""⟩ (by decide)

/-- C5 counterexample: `delete_transaction` takes only an id and checks no
ownership: deleting id 1 — an id any authenticated user can supply — removes
alice's transaction from the store. -/
theorem delete_ignores_ownership :
    sampleStore.transactions.any
      (fun t => t.id == 1 && t.username == "alice") = true ∧
    (delete_transaction sampleStore 1).transactions.any
      (fun t => t.id == 1) = false := by
  decide

/-- C6: `verify_user` returns exactly (false, none) whenever no stored row
matches the username with a passing password check — an absent username and a
present username with a failing check are observationally identical. -/
theorem verify_user_uniform_failure (checkpw : String → String → Bool)
    (users : List UserRec) (username password : String)
    (h : ∀ u ∈ users, u.username = username →
      checkpw password u.password_hash = false) :
    verify_user checkpw users username password = (false, none) := by
  unfold verify_user
  cases hfind : users.find? (fun u => u.username == username) with
  | none => rfl
  | some u =>
    have hu := List.find?_some hfind
    have humem := List.mem_of_find?_eq_some hfind
    simp [h u humem (by simpa using hu)]

/-- C6 witness: spec scenario 4 — a wrong password for an existing user and
any password for a missing user produce the identical pair (false, none). -/
theorem verify_user_uniform_failure_witness :
    verify_user (fun p h => p == h) [⟨"alice", "secret", "user"⟩]
      "alice" "wrongpass" = (false, none) ∧
    verify_user (fun p h => p == h) [⟨"alice", "secret", "user"⟩]
      "nouser" "x" = (false, none) :=
  ⟨verify_user_uniform_failure (fun p h => p == h)
      [⟨"alice", "secret", "user"⟩] "alice" "wrongpass" (by decide),
   verify_user_uniform_failure (fun p h => p == h)
      [⟨"alice", "secret", "user"⟩] "nouser" "x" (by decide)⟩

/-- C7: `delete_transaction` is idempotent — deleting the same id twice
leaves the same store as deleting it once — and deleting an id that is
already absent raises nothing and leaves the store unchanged. -/
theorem delete_transaction_idempotent (s : Store) (transaction_id : Nat) :
    delete_transaction (delete_transaction s transaction_id) transaction_id =
      delete_transaction s transaction_id ∧
    ((∀ t ∈ s.transactions, t.id ≠ transaction_id) →
      delete_transaction s transaction_id = s) := by
  constructor
  · unfold delete_transaction
    simp [List.filter_filter]
  · intro h
    unfold delete_transaction
    have hself : s.transactions.filter
        (fun t => t.id != transaction_id) = s.transactions :=
      List.filter_eq_self.mpr (fun t ht => by simpa using h t ht)
    rw [hself]

/-- C7 witness: id 99 is absent from the sample store, so deleting it
changes nothing. -/
theorem delete_transaction_idempotent_witness :
    delete_transaction sampleStore 99 = sampleStore :=
  (delete_transaction_idempotent sampleStore 99).2 (by decide)

/-- C8: `update_password` always reports (true, "Password updated
successfully"); when the username exists the stored hash becomes the new
hash, and when it is absent no user record changes — there is no existence
check and no NotFound signal. -/
theorem update_password_spec (users : List UserRec)
    (username newHash : String) :
    (update_password users username newHash).2 =
      (true, "Password updated successfully") ∧
    ((∀ u ∈ users, u.username ≠ username) →
      (update_password users username newHash).1 = users) ∧
    (∀ u ∈ (update_password users username newHash).1,
      (u.username = username → u.password_hash = newHash) ∧
      (u.username ≠ username → u ∈ users)) := by
  refine ⟨rfl, ?_, ?_⟩
  · intro h
    show users.map _ = users
    have hcong : ∀ u ∈ users,
        (if u.username == username then
          { u with password_hash := newHash } else u) = id u := by
      intro u hu
      simp [beq_eq_false_iff_ne.mpr (h u hu)]
    rw [List.map_congr_left hcong, List.map_id]
  · intro u' hu'
    obtain ⟨u, hu, hfu⟩ := List.mem_map.mp hu'
    by_cases hname : u.username = username
    · have hb : (u.username == username) = true := by simpa using hname
      rw [← hfu, if_pos hb]
      exact ⟨fun _ => rfl, fun hne => absurd hname hne⟩
    · have hb : ¬ ((u.username == username) = true) := by simpa using hname
      rw [← hfu, if_neg hb]
      exact ⟨fun hc => absurd hc hname, fun _ => hu⟩

/-- C8 witness: resetting the password of the absent username "ghost" leaves
the user list unchanged yet still reports success. -/
theorem update_password_spec_witness :
    (update_password [⟨"alice", "h0", "user"⟩] "ghost" "h1").1 =
      [⟨"alice", "h0", "user"⟩] ∧
    (update_password [⟨"alice", "h0", "user"⟩] "ghost" "h1").2 =
      (true, "Password updated successfully") :=
  ⟨(update_password_spec [⟨"alice", "h0", "user"⟩] "ghost" "h1").2.1
      (by decide),
   (update_password_spec [⟨"alice", "h0", "user"⟩] "ghost" "h1").1⟩

/-- C10 (amended): when no admin-role user exists and no user is named
"admin", initialization inserts the bootstrap admin with password "admin123"
and `verify_user("admin", "admin123")` then succeeds with role admin; when an
admin-role user already exists, initialization inserts nothing. -/
theorem init_admin_bootstrap (hashpw : String → String)
    (checkpw : String → String → Bool) (users : List UserRec) :
    ((∀ u ∈ users, u.role ≠ "admin") → (∀ u ∈ users, u.username ≠ "admin") →
      init_admin hashpw users =
        Except.ok (users ++ [⟨"admin", hashpw "admin123", "admin"⟩]) ∧
      (checkpw "admin123" (hashpw "admin123") = true →
        verify_user checkpw (users ++ [⟨"admin", hashpw "admin123", "admin"⟩])
          "admin" "admin123" = (true, some "admin"))) ∧
    ((∃ u ∈ users, u.role = "admin") →
      init_admin hashpw users = Except.ok users) := by
  constructor
  · intro hrole husr
    have h1 : users.filter (fun u => u.role == "admin") = [] :=
      List.filter_eq_nil_iff.mpr (fun u hu => by simpa using hrole u hu)
    have h2 : users.any (fun u => u.username == "admin") = false := by
      rw [List.any_eq_false]
      intro u hu
      simpa using husr u hu
    constructor
    · simp [init_admin, h1, h2]
    · intro hck
      unfold verify_user
      rw [List.find?_append]
      have h3 : users.find? (fun u => u.username == "admin") = none := by
        rw [List.find?_eq_none]
        intro u hu
        simpa using husr u hu
      rw [h3]
      simp [List.find?, hck]
  · rintro ⟨u, hu, hrole⟩
    have hne : users.filter (fun u => u.role == "admin") ≠ [] :=
      List.ne_nil_of_mem (List.mem_filter.mpr ⟨hu, by simpa using hrole⟩)
    have hcond : ((users.filter (fun u => u.role == "admin")).length == 0)
        = false := by
      rw [beq_eq_false_iff_ne]
      simpa [Ne, List.length_eq_zero] using hne
    simp [init_admin, hcond]

/-- C10 witness: on an empty user table, initialization inserts the bootstrap
admin and `verify_user("admin", "admin123")` answers (true, admin). -/
theorem init_admin_bootstrap_witness :
    init_admin (fun p => p ++ "#h") [] =
      Except.ok [⟨"admin", "admin123" ++ "#h", "admin"⟩] ∧
    verify_user (fun p h => (p ++ "#h") == h)
      [⟨"admin", "admin123" ++ "#h", "admin"⟩] "admin" "admin123" =
      (true, some "admin") := by
  have h := (init_admin_bootstrap (fun p => p ++ "#h")
    (fun p h => (p ++ "#h") == h) []).1 (by decide) (by decide)
  exact ⟨h.1, h.2 (by decide)⟩

/-- C10 counterexample: a store whose only user is a non-admin named "admin"
has no admin-role user, yet initialization fails on the username primary key
instead of inserting the bootstrap admin. -/
theorem init_admin_pk_clash :
    (([⟨"admin", "h0", "user"⟩] : List UserRec).all
      (fun u => u.role != "admin")) = true ∧
    init_admin (fun p => p) [⟨"admin", "h0", "user"⟩] =
      Except.error "UNIQUE constraint failed: users.username" :=
  ⟨rfl, rfl⟩

/-! ### Lemmas for the monthly summary -/

theorem mem_aggregateByKey {ts : List Transaction} {c k : String} {q : ℚ} :
    (c, k, q) ∈ aggregateByKey ts ↔
      ((c, k) ∈ ts.map txKey ∧
        q = ((ts.filter (fun t => txKey t == (c, k))).map
          (fun t => t.amount)).sum) := by
  unfold aggregateByKey
  rw [List.mem_map]
  constructor
  · rintro ⟨key, hkey, heq⟩
    have h1 : key.1 = c := congrArg Prod.fst heq
    have h2 : key.2 = k := congrArg (fun r : String × String × ℚ => r.2.1) heq
    have h3 : ((ts.filter (fun t => txKey t == key)).map
        (fun t => t.amount)).sum = q :=
      congrArg (fun r : String × String × ℚ => r.2.2) heq
    have hkck : key = (c, k) := by
      rw [← h1, ← h2]
    subst hkck
    exact ⟨List.mem_dedup.mp hkey, h3.symm⟩
  · rintro ⟨hmem, hq⟩
    refine ⟨(c, k), List.mem_dedup.mpr hmem, ?_⟩
    rw [hq]

theorem aggregateByKey_keys_nodup (ts : List Transaction) :
    ((aggregateByKey ts).map
      (fun r : String × String × ℚ => (r.1, r.2.1))).Nodup := by
  unfold aggregateByKey
  rw [List.map_map]
  have hcomp : ∀ key ∈ (ts.map txKey).dedup,
      ((fun r : String × String × ℚ => (r.1, r.2.1)) ∘
        (fun k => (k.1, k.2, ((ts.filter (fun t => txKey t == k)).map
          (fun t => t.amount)).sum))) key = id key :=
    fun key _ => Prod.mk.eta
  rw [List.map_congr_left hcomp, List.map_id]
  exact List.nodup_dedup _

theorem aggregateByKey_perm_mem {ts1 ts2 : List Transaction}
    (h : List.Perm ts1 ts2) (c k : String) (q : ℚ) :
    (c, k, q) ∈ aggregateByKey ts1 ↔ (c, k, q) ∈ aggregateByKey ts2 := by
  rw [mem_aggregateByKey, mem_aggregateByKey]
  have hkey : (c, k) ∈ ts1.map txKey ↔ (c, k) ∈ ts2.map txKey :=
    (h.map txKey).mem_iff
  have hsum : ((ts1.filter (fun t => txKey t == (c, k))).map
      (fun t => t.amount)).sum =
      ((ts2.filter (fun t => txKey t == (c, k))).map
        (fun t => t.amount)).sum :=
    (((h.filter (fun t => txKey t == (c, k))).map (fun t => t.amount))).sum_eq
  rw [hkey, hsum]

/-- C3: `get_monthly_summary(owner, year, month)` has exactly one row per
(category, kind) pair with at least one matching transaction in that calendar
month — a pair with no matching transaction is omitted — each row's total is
the sum of the matching amounts, and row membership coincides with the
client-side cross-check that filters `get_all_transactions` to the month and
aggregates by (category, kind). -/
theorem monthly_summary_correct (s : Store) (username : String)
    (year month : Nat) :
    ((get_monthly_summary s username year month).map
      (fun r : String × String × ℚ => (r.1, r.2.1))).Nodup ∧
    (∀ c k : String,
      (∃ q, (c, k, q) ∈ get_monthly_summary s username year month) ↔
      ∃ t ∈ monthTxs s username year month,
        t.category = c ∧ t.type = k) ∧
    (∀ (c k : String) (q : ℚ),
      (c, k, q) ∈ get_monthly_summary s username year month →
      q = (((monthTxs s username year month).filter
          (fun t => t.category == c && t.type == k)).map
        (fun t => t.amount)).sum) ∧
    (∀ (c k : String) (q : ℚ),
      (c, k, q) ∈ get_monthly_summary s username year month ↔
      (c, k, q) ∈ monthlySummaryClient s username year month) := by
  refine ⟨aggregateByKey_keys_nodup _, ?_, ?_, ?_⟩
  · intro c k
    constructor
    · rintro ⟨q, hq⟩
      obtain ⟨hmem, _⟩ := mem_aggregateByKey.mp hq
      obtain ⟨t, ht, hkey⟩ := List.mem_map.mp hmem
      refine ⟨t, ht, ?_, ?_⟩
      · exact congrArg Prod.fst hkey
      · exact congrArg Prod.snd hkey
    · rintro ⟨t, ht, hc, hk⟩
      refine ⟨_, mem_aggregateByKey.mpr ⟨?_, rfl⟩⟩
      exact List.mem_map.mpr ⟨t, ht, by rw [txKey, hc, hk]⟩
  · intro c k q hq
    obtain ⟨_, hsum⟩ := mem_aggregateByKey.mp hq
    have hfil : (monthTxs s username year month).filter
        (fun t => txKey t == (c, k)) =
        (monthTxs s username year month).filter
          (fun t => t.category == c && t.type == k) := by
      apply List.filter_congr
      intro t _
      rw [Bool.eq_iff_iff]
      by_cases h1 : t.category = c
      · by_cases h2 : t.type = k
        · simp [txKey, h1, h2]
        · simp [txKey, h1, h2, Prod.ext_iff]
      · simp [txKey, h1, Prod.ext_iff]
    rw [hsum, hfil]
  · intro c k q
    have h2 : (ownerTxs s username).filter
        (fun t => t.date.year == year && t.date.month == month) =
        monthTxs s username year month := by
      unfold ownerTxs monthTxs
      rw [List.filter_filter]
      apply List.filter_congr
      intro t _
      rw [Bool.eq_iff_iff]
      simp only [Bool.and_eq_true]
      tauto
    have hperm : List.Perm
        ((get_all_transactions s username).filter
          (fun t => t.date.year == year && t.date.month == month))
        (monthTxs s username year month) := by
      have h1 := (List.perm_insertionSort txAfter (ownerTxs s username)).filter
        (fun t => t.date.year == year && t.date.month == month)
      exact h2 ▸ h1
    exact aggregateByKey_perm_mem hperm.symm c k q

/-- C3 witness: scenario 3 of the spec — alice's January 2024 summary is
[(Sales, Income, 100), (Rent, Expense, 40)], and its Sales row is also a row
of the client-side aggregation. -/
theorem monthly_summary_correct_witness :
    get_monthly_summary sampleStore "alice" 2024 1 =
      [("Sales", "Income", (100 : ℚ)), ("Rent", "Expense", (40 : ℚ))] ∧
    ("Sales", "Income", (100 : ℚ)) ∈
      monthlySummaryClient sampleStore "alice" 2024 1 := by
  have h1 : monthTxs sampleStore "alice" 2024 1 =
      [⟨1, "alice", ⟨2024, 1, 5⟩, "Income", "Sales", 100, ""⟩,
       ⟨2, "alice", ⟨2024, 1, 5⟩, "Expense", "Rent", 40, ""⟩] := by decide
  have heval : get_monthly_summary sampleStore "alice" 2024 1 =
      [("Sales", "Income", (100 : ℚ)), ("Rent", "Expense", (40 : ℚ))] := by
    show aggregateByKey (monthTxs sampleStore "alice" 2024 1) = _
    rw [h1]
    unfold aggregateByKey
    have h2 : (([⟨1, "alice", ⟨2024, 1, 5⟩, "Income", "Sales", 100, ""⟩,
        ⟨2, "alice", ⟨2024, 1, 5⟩, "Expense", "Rent", 40, ""⟩] :
          List Transaction).map txKey).dedup =
        [("Sales", "Income"), ("Rent", "Expense")] := by decide
    rw [h2]
    have h3 : (([⟨1, "alice", ⟨2024, 1, 5⟩, "Income", "Sales", 100, ""⟩,
        ⟨2, "alice", ⟨2024, 1, 5⟩, "Expense", "Rent", 40, ""⟩] :
          List Transaction).filter
            (fun t => txKey t == ("Sales", "Income"))) =
        [⟨1, "alice", ⟨2024, 1, 5⟩, "Income", "Sales", 100, ""⟩] := by decide
    have h4 : (([⟨1, "alice", ⟨2024, 1, 5⟩, "Income", "Sales", 100, ""⟩,
        ⟨2, "alice", ⟨2024, 1, 5⟩, "Expense", "Rent", 40, ""⟩] :
          List Transaction).filter
            (fun t => txKey t == ("Rent", "Expense"))) =
        [⟨2, "alice", ⟨2024, 1, 5⟩, "Expense", "Rent", 40, ""⟩] := by decide
    simp only [List.map_cons, List.map_nil]
    rw [h3, h4]
    norm_num
  refine ⟨heval, ?_⟩
  exact ((monthly_summary_correct sampleStore "alice" 2024 1).2.2.2
    "Sales" "Income" 100).mp (by rw [heval]; exact List.mem_cons_self _ _)

end Cashflow
